import Mathlib

/-
Verification of the Graph Reduction & Adaptive Rendering Engine
(`src/ufct/src/utils/graphUtils.js` and the renderer's
`getOptimizedSimulationConfig`) against its natural-language specification.

Modelling conventions:
- Node/edge ids are `String`s; `source`/`target` of a link are ids, matching
  the spec's data model (the JS `typeof link.source === 'object'` unwrapping
  is the identity under this representation).
- Caller-owned passthrough attributes are carried as a type parameter so the
  theorems hold for every payload.
- JS objects / Maps with string keys are association lists in insertion
  order; JS `Set`s are duplicate-free lists in insertion order.
- JS numeric literals (0.15, 0.2, 0.6, 0.8, 1.2, ...) are modelled as the
  exact rationals they denote; `Math.round` is `round : ℚ → ℤ`
  (round-half-up on the non-negative values that occur here), `Math.ceil`
  is `Int.ceil`.
- `Array.prototype.sort` (stable since ES2019) is modelled by a stable
  insertion sort `sortBy`.
- The one source of nondeterminism, `Math.random() < sampleRate` inside
  `randomSampleNodes`, is modelled by an oracle `draws : Nat → Bool` giving
  the outcome of the i-th comparison.
-/

/-- A graph node: an id plus arbitrary caller-owned attributes. -/
structure Node (α : Type) where
  id : String
  attrs : α
deriving DecidableEq

/-- A graph edge: endpoint ids plus arbitrary caller-owned attributes. -/
structure Link (β : Type) where
  source : String
  target : String
  attrs : β
deriving DecidableEq

/-! ### JS `Set` of strings, as a duplicate-free list in insertion order -/

/-- `Set.prototype.add`: append unless already present. -/
def setAdd (l : List String) (x : String) : List String :=
  if x ∈ l then l else l ++ [x]

/-- `new Set(iterable)`: fold `add` over the elements in order. -/
def setOfList (l : List String) : List String :=
  l.foldl setAdd []

/-! ### Stable sort (JS `Array.prototype.sort`, stable since ES2019)

`insertBy lt x l` inserts `x` before the first element `y` with `lt y x`,
i.e. after every element that does not compare strictly after `x`; folding
it left over the input yields a stable sort. -/

def insertBy {α : Type} (lt : α → α → Bool) (x : α) : List α → List α
  | [] => [x]
  | y :: ys => if lt y x then x :: y :: ys else y :: insertBy lt x ys

def sortBy {α : Type} (lt : α → α → Bool) (l : List α) : List α :=
  l.foldl (fun acc x => insertBy lt x acc) []

/-! ### Graph Sanitizer (`cleanNodes` / `cleanLinks`) -/

/-- Loop of `cleanNodes`: `seen` is the set of ids of already-kept nodes. -/
def cleanNodesAux {α : Type} : List (Node α) → List String → List (Node α)
  | [], _ => []
  | n :: ns, seen =>
    if n.id ∈ seen then cleanNodesAux ns seen
    else n :: cleanNodesAux ns (n.id :: seen)

/-- `cleanNodes`: drop every node whose id was already seen. -/
def cleanNodes {α : Type} (nodes : List (Node α)) : List (Node α) :=
  cleanNodesAux nodes []

/-- Lexicographic strict comparison on character lists (the order JS uses
to compare strings code-unit-wise). -/
def charsLt : List Char → List Char → Bool
  | [], [] => false
  | [], _ :: _ => true
  | _ :: _, [] => false
  | a :: as, b :: bs => if a < b then true else if b < a then false else charsLt as bs

/-- `s <= t` in the JS string order. -/
def strLe (s t : String) : Bool :=
  ! charsLt t.data s.data

/-- `[link.source, link.target].sort().join('-')`: the dedup key used by
`cleanLinks`. JS sorts the two strings lexicographically. -/
def canonicalKey {β : Type} (l : Link β) : String :=
  if strLe l.source l.target then l.source ++ "-" ++ l.target
  else l.target ++ "-" ++ l.source

/-- Loop of `cleanLinks`: `seen` is the set of dedup keys of kept links. -/
def cleanLinksAux {β : Type} : List (Link β) → List String → List (Link β)
  | [], _ => []
  | l :: ls, seen =>
    if l.source = l.target then cleanLinksAux ls seen
    else if canonicalKey l ∈ seen then cleanLinksAux ls seen
    else l :: cleanLinksAux ls (canonicalKey l :: seen)

/-- `cleanLinks`: drop self-loops, then dedup by canonical key. -/
def cleanLinks {β : Type} (links : List (Link β)) : List (Link β) :=
  cleanLinksAux links []

/-! ### Degree map (`calculateNodeDegrees`)

A JS object with string keys, in insertion order, as an association list. -/

/-- `degrees[k] = v`: overwrite in place if present, else append. -/
def setKey (m : List (String × Nat)) (k : String) (v : Nat) : List (String × Nat) :=
  match m with
  | [] => [(k, v)]
  | e :: rest => if e.1 = k then (k, v) :: rest else e :: setKey rest k v

/-- `degrees[k]++` (only meaningful when the key is present). -/
def incKey (m : List (String × Nat)) (k : String) : List (String × Nat) :=
  match m with
  | [] => []
  | e :: rest => if e.1 = k then (e.1, e.2 + 1) :: rest else e :: incKey rest k

/-- `Object.prototype.hasOwnProperty.call(degrees, k)`. -/
def hasKey (m : List (String × Nat)) (k : String) : Bool :=
  m.any (fun e => e.1 == k)

/-- `degrees[k]`, defaulting to 0 (all lookups in the source are on
present keys). -/
def getDeg (m : List (String × Nat)) (k : String) : Nat :=
  ((m.find? (fun e => e.1 == k)).map (·.2)).getD 0

/-- Key list of the map. -/
def keysOf (m : List (String × Nat)) : List String :=
  m.map (·.1)

/-- Sum of all degree values. -/
def sumVals (m : List (String × Nat)) : Nat :=
  (m.map (·.2)).sum

/-- `nodes.forEach(node => { degrees[node.id] = 0 })`. -/
def initDegrees {α : Type} (nodes : List (Node α)) : List (String × Nat) :=
  nodes.foldl (fun m n => setKey m n.id 0) []

/-- `if (hasOwnProperty(degrees, k)) degrees[k]++`. -/
def incIfPresent (m : List (String × Nat)) (k : String) : List (String × Nat) :=
  if hasKey m k then incKey m k else m

/-- One step of the edge loop of `calculateNodeDegrees`: increment each
endpoint that is a key of the map, skip unknown endpoints. -/
def addLinkDegrees {β : Type} (m : List (String × Nat)) (l : Link β) : List (String × Nat) :=
  incIfPresent (incIfPresent m l.source) l.target

/-- `calculateNodeDegrees`: init every node id to 0, then add both
endpoints of every link that are known ids. -/
def calculateNodeDegrees {α β : Type} (nodes : List (Node α)) (links : List (Link β)) :
    List (String × Nat) :=
  links.foldl addLinkDegrees (initDegrees nodes)

/-! ### Dynamic threshold (`calculateDynamicThreshold`)

The JS `while (low <= high)` binary search is modelled by a step-indexed
recursion `dtLoopFuel`; `dtIterationBound` iterations always suffice (the
termination theorem for claim C6 proves the result is independent of any
fuel at least that large), so `calculateDynamicThreshold` runs the loop
with exactly that much fuel. -/

/-- `count = degreeValues.filter(d => d >= mid).length`. -/
def dtCount (vals : List Nat) (mid : Int) : Nat :=
  (vals.filter (fun d => (d : Int) ≥ mid)).length

/-- The JS band test `count >= target*0.6 && count <= target*1.2`
(literals as exact rationals). -/
def dtInBand (target : Nat) (count : Nat) : Prop :=
  (count : ℚ) ≥ (target : ℚ) * (6 / 10) ∧ (count : ℚ) ≤ (target : ℚ) * (12 / 10)

instance (target count : Nat) : Decidable (dtInBand target count) := by
  unfold dtInBand; infer_instance

/-- Number of loop iterations that can still happen from state
`(low, high)`: the interval length. -/
def dtIterationBound (low high : Int) : Nat :=
  (high + 1 - low).toNat

/-- The binary-search loop body of `calculateDynamicThreshold`, with fuel.
`mid = Math.floor((low + high) / 2)` is floor division; for the positive
divisor 2 that is exactly `Int` division (`Int.ediv`). -/
def dtLoopFuel (vals : List Nat) (target : Nat) :
    Nat → Int → Int → Int → Int
  | 0, _, _, best => best
  | fuel + 1, low, high, best =>
    if low ≤ high then
      let mid := (low + high) / 2
      let count := dtCount vals mid
      if dtInBand target count then mid
      else if (count : ℚ) > (target : ℚ) * (12 / 10) then
        dtLoopFuel vals target fuel (mid + 1) high best
      else
        dtLoopFuel vals target fuel low (mid - 1) mid
    else best

/-- `Math.max(...degreeValues)` on a non-empty list (the early-return
guard of the source rules out the empty case). -/
def maxElem (l : List Nat) : Nat :=
  l.foldl max 0

/-- `calculateDynamicThreshold(degrees, targetNodes, minThreshold)`. -/
def calculateDynamicThreshold (degrees : List (String × Nat))
    (targetNodes minThreshold : Nat) : Int :=
  let degreeValues := sortBy (fun y x => y < x) (degrees.map (·.2))
  if degreeValues.length ≤ targetNodes then (minThreshold : Int)
  else
    let low : Int := (minThreshold : Int)
    let high : Int := (maxElem degreeValues : Int)
    dtLoopFuel degreeValues targetNodes (dtIterationBound low high) low high low

/-! ### Community merge (`mergeNodeCommunities`) -/

/-- The intermediate node records `{id, degree}` built by the caller of
`mergeNodeCommunities`. -/
structure MergeNode where
  id : String
  degree : Nat
deriving DecidableEq

/-- Adjacency map: JS `Map<id, Set<id>>` in insertion order. -/
def adjGet (m : List (String × List String)) (k : String) : List String :=
  ((m.find? (fun e => e.1 == k)).map (·.2)).getD []

def adjHas (m : List (String × List String)) (k : String) : Bool :=
  m.any (fun e => e.1 == k)

/-- `adjacency.get(k).add(v)` (no-op when the key is absent; both call
sites have checked presence). -/
def adjAdd (m : List (String × List String)) (k v : String) :
    List (String × List String) :=
  match m with
  | [] => []
  | e :: rest =>
    if e.1 = k then (e.1, setAdd e.2 v) :: rest else e :: adjAdd rest k v

/-- Build the adjacency table of `mergeNodeCommunities`: init every node
id to an empty set, then for every link with both endpoints present add
each endpoint to the other's neighbour set. -/
def buildAdjacency {β : Type} (nodes : List MergeNode) (links : List (Link β)) :
    List (String × List String) :=
  let init := nodes.foldl (fun m n => m ++ [(n.id, ([] : List String))]) []
  links.foldl (fun m l =>
    if adjHas m l.source ∧ adjHas m l.target then
      adjAdd (adjAdd m l.source l.target) l.target l.source
    else m) init

/-- The inner neighbour scan for one candidate `a`: thread the current
`(bestPair, maxSimilarity)` state through `a`'s neighbour set. -/
def scanNeighbors (nodes : List MergeNode)
    (adjacency : List (String × List String)) (result : List String)
    (a : MergeNode) (st : Option String × Int) : Option String × Int :=
  (adjGet adjacency a.id).foldl (fun st nb =>
    if nb ∈ result then
      match nodes.find? (fun n => n.id == nb) with
      | some b =>
        if b.degree > a.degree + 2 then st
        else
          let common :=
            ((adjGet adjacency a.id).filter
              (fun x => decide (x ∈ adjGet adjacency nb))).length
          if (common : Int) > st.2 then (some a.id, (common : Int)) else st
      | none => st
    else st) st

/-- One full scan over (at most) the 10 lowest-degree still-sorted
candidates, returning the best merge candidate found. -/
def scanCandidates (nodes : List MergeNode)
    (adjacency : List (String × List String)) (sorted : List MergeNode)
    (result : List String) : Option String × Int :=
  (sorted.take 10).foldl (fun st a =>
    if a.id ∈ result then scanNeighbors nodes adjacency result a st else st)
    (none, (-1 : Int))

/-- The greedy `while (result.size > targetCount && sortedNodes.length > 0)`
loop: remove the best candidate and shift the sorted list, or stop when a
scan finds nothing. -/
def mergeLoop {β : Type} (nodes : List MergeNode)
    (adjacency : List (String × List String)) (_links : List (Link β))
    (targetCount : Nat) : List MergeNode → List String → List String
  | [], result => result
  | a :: rest, result =>
    if result.length ≤ targetCount then result
    else
      match (scanCandidates nodes adjacency (a :: rest) result).1 with
      | some bp => mergeLoop nodes adjacency _links targetCount rest (result.erase bp)
      | none => result

/-- `mergeNodeCommunities(nodes, links, targetCount)`. -/
def mergeNodeCommunities {β : Type} (nodes : List MergeNode)
    (links : List (Link β)) (targetCount : Nat) : List MergeNode :=
  if nodes.length ≤ targetCount then nodes
  else
    let adjacency := buildAdjacency nodes links
    let sortedNodes := sortBy (fun y x => x.degree < y.degree) nodes
    let result := mergeLoop nodes adjacency links targetCount sortedNodes
      (setOfList (sortedNodes.map (·.id)))
    nodes.filter (fun n => decide (n.id ∈ result))

/-! ### Random sampling (`randomSampleNodes`)

`draws i` is the outcome of the i-th `Math.random() < sampleRate`
comparison. -/

/-- The probabilistic retention pass: keep `nodeIds[i]` iff `draws i`. -/
def randomPassAux (draws : Nat → Bool) : Nat → List String → List String
  | _, [] => []
  | i, x :: xs =>
    if draws i then x :: randomPassAux draws (i + 1) xs
    else randomPassAux draws (i + 1) xs

def randomPass (nodeIds : List String) (draws : Nat → Bool) : List String :=
  randomPassAux draws 0 nodeIds

/-- `randomSampleNodes(nodeIds, targetCount)`: probabilistic retention,
then top up from the not-retained ids (in order) while below target.
There is no trimming step for an over-retained pass. -/
def randomSampleNodes (nodeIds : List String) (targetCount : Nat)
    (draws : Nat → Bool) : List String :=
  if nodeIds.length ≤ targetCount then nodeIds
  else
    let result := setOfList (randomPass nodeIds draws)
    if result.length < targetCount then
      let remaining := nodeIds.filter (fun id => decide (id ∉ result))
      (remaining.take (targetCount - result.length)).foldl setAdd result
    else result

/-! ### The reduction entry point (`optimizeGraphForPerformance`) -/

/-- The options object, with the source's defaults. -/
structure OptimizeOptions where
  maxNodes : Nat
  preserveTopPercent : ℚ
  enableCommunityMerge : Bool
deriving DecidableEq

def defaultOptions : OptimizeOptions :=
  ⟨1500, 15 / 100, true⟩

/-- The result record. `filteredCount` is the spec's `removedCount`,
`optimizationLevel` the spec's `level`; the no-op branch of the source
returns no `compressionRate` field, hence the `Option`. -/
structure ReductionResult (α β : Type) where
  nodes : List (Node α)
  links : List (Link β)
  filteredCount : Nat
  compressionRate : Option Int
  optimizationLevel : String
deriving DecidableEq

/-- First layer: ids whose degree passes the dynamic threshold. -/
def importantIds (degrees : List (String × Nat)) (dyn : Int) : List String :=
  (degrees.filter (fun e => (e.2 : Int) ≥ dyn)).map (·.1)

/-- `topNodeCount = max(ceil(n * preserveTopPercent), max(50, ceil(maxNodes * 0.2)))`. -/
def topNodeCount (numNodes : Nat) (opts : OptimizeOptions) : Nat :=
  (max ⌈(numNodes : ℚ) * opts.preserveTopPercent⌉
    (max 50 ⌈(opts.maxNodes : ℚ) * (2 / 10)⌉)).toNat

/-- Second layer: ids of the first `k` entries of the degree map stably
sorted by descending degree. -/
def topDegreeIds (degrees : List (String × Nat)) (k : Nat) : List String :=
  ((sortBy (fun y x => y.2 < x.2) degrees).take k).map (·.1)

/-- Union of the two layers, as a JS `Set` (insertion order, deduped). -/
def keepCandidates {α β : Type} (nodes : List (Node α)) (links : List (Link β))
    (threshold : Nat) (opts : OptimizeOptions) : List String :=
  let degrees := calculateNodeDegrees nodes links
  let dyn := calculateDynamicThreshold degrees opts.maxNodes threshold
  setOfList (importantIds degrees dyn ++
    topDegreeIds degrees (topNodeCount nodes.length opts))

/-- Third layer: community merge, when enabled and the candidate set is
still above `0.8 * maxNodes`. -/
def keepAfterMerge {α β : Type} (nodes : List (Node α)) (links : List (Link β))
    (threshold : Nat) (opts : OptimizeOptions) : List String :=
  let degrees := calculateNodeDegrees nodes links
  let ids := keepCandidates nodes links threshold opts
  if opts.enableCommunityMerge ∧
      ((ids.length : ℚ) > (opts.maxNodes : ℚ) * (8 / 10)) then
    setOfList ((mergeNodeCommunities
      (ids.map (fun i => ⟨i, getDeg degrees i⟩)) links
      (⌈(opts.maxNodes : ℚ) * (7 / 10)⌉.toNat)).map (·.id))
  else ids

/-- Fourth layer: random sampling, when still above `maxNodes`. -/
def finalKeepIds {α β : Type} (nodes : List (Node α)) (links : List (Link β))
    (threshold : Nat) (opts : OptimizeOptions) (draws : Nat → Bool) : List String :=
  let ids := keepAfterMerge nodes links threshold opts
  if ids.length > opts.maxNodes then randomSampleNodes ids opts.maxNodes draws
  else ids

/-- `optimizeGraphForPerformance(nodes, links, threshold, options)`. -/
def optimizeGraphForPerformance {α β : Type} (nodes : List (Node α))
    (links : List (Link β)) (threshold : Nat) (opts : OptimizeOptions)
    (draws : Nat → Bool) : ReductionResult α β :=
  if nodes.length ≤ opts.maxNodes then
    ⟨nodes, links, 0, none, "none"⟩
  else
    let keep := finalKeepIds nodes links threshold opts draws
    let optimizedNodes := nodes.filter (fun n => decide (n.id ∈ keep))
    let optimizedLinks := links.filter (fun l =>
      decide (l.source ∈ keep) && decide (l.target ∈ keep))
    let compressionRate : ℚ :=
      1 - (optimizedNodes.length : ℚ) / (nodes.length : ℚ)
    ⟨optimizedNodes, optimizedLinks, nodes.length - optimizedNodes.length,
      some (round (compressionRate * 100)),
      if compressionRate > 8 / 10 then "heavy"
      else if compressionRate > 5 / 10 then "moderate" else "light"⟩

/-! ### Adaptive layout configurator (`getOptimizedSimulationConfig`) -/

/-- The force-simulation parameter tuple (numeric literals as exact
rationals). -/
structure SimulationConfig where
  linkDistance : ℚ
  linkStrength : ℚ
  chargeStrength : ℚ
  distanceMin : ℚ
  distanceMax : ℚ
  collideRadius : ℚ
deriving DecidableEq

/-- `getOptimizedSimulationConfig(nodeCount)`: a pure lookup over the
fixed breakpoints <100, <500, <1000, ≥1000. -/
def getOptimizedSimulationConfig (nodeCount : Nat) : SimulationConfig :=
  if nodeCount < 100 then
    ⟨60, 1 / 10, -300, 1, 300, 8⟩
  else if nodeCount < 500 then
    ⟨50, 8 / 100, -200, 10, 250, 6⟩
  else if nodeCount < 1000 then
    ⟨40, 5 / 100, -100, 30, 200, 5⟩
  else
    ⟨30, 3 / 100, -50, 50, 150, 4⟩

/-! ### Specification-side definitions

These follow the spec's/claims' words, for comparison with the
source-derived functions above. -/

/-- Number of occurrences of `k` as an endpoint of a link list (a
self-loop on `k` counts twice, matching the undirected counting
convention). -/
def endpointCount {β : Type} (k : String) (links : List (Link β)) : Nat :=
  (links.map (fun l =>
    (if l.source = k then 1 else 0) + (if l.target = k then 1 else 0))).sum

/-- An id that does not contain the `'-'` character (the join separator of
the source's dedup key). -/
def dashFree (s : String) : Prop :=
  '-' ∉ s.data

instance (s : String) : Decidable (dashFree s) := by
  unfold dashFree; infer_instance

/-- Modelled from the spec: the canonical unordered pair
`{min(source,target), max(source,target)}` of an edge, in the JS string
order. -/
def specPair {β : Type} (l : Link β) : String × String :=
  if strLe l.source l.target then (l.source, l.target) else (l.target, l.source)

/-- Modelled from the spec: keep a node iff no earlier input node (kept or
not) has the same id; `pre` carries the ids of all already-scanned nodes. -/
def specCleanNodesAux {α : Type} : List (Node α) → List String → List (Node α)
  | [], _ => []
  | n :: ns, pre =>
    if n.id ∈ pre then specCleanNodesAux ns (pre ++ [n.id])
    else n :: specCleanNodesAux ns (pre ++ [n.id])

def specCleanNodes {α : Type} (nodes : List (Node α)) : List (Node α) :=
  specCleanNodesAux nodes []

/-- Modelled from the spec: keep an edge iff it is not a self-loop and no
earlier kept edge has the same canonical unordered pair. -/
def specCleanLinksAux {β : Type} : List (Link β) → List (String × String) → List (Link β)
  | [], _ => []
  | l :: ls, seen =>
    if l.source = l.target then specCleanLinksAux ls seen
    else if specPair l ∈ seen then specCleanLinksAux ls seen
    else l :: specCleanLinksAux ls (specPair l :: seen)

def specCleanLinks {β : Type} (links : List (Link β)) : List (Link β) :=
  specCleanLinksAux links []

/-- Modelled from the claim for C8: `level` as a function of the rounded
percentage `compressionRate` (heavy above 80, moderate above 50, light
otherwise). -/
def specLevelOfRate (rate : Int) : String :=
  if rate > 80 then "heavy" else if rate > 50 then "moderate" else "light"

/-! ### Concrete inputs used by counterexamples and witnesses -/

/-- `n` distinct isolated nodes `n0, n1, ...`. -/
def rangeNodes (n : Nat) : List (Node Unit) :=
  (List.range n).map (fun i => ⟨"n" ++ toString i, ()⟩)

def nodes51 : List (Node Unit) := rangeNodes 51

def nodes60 : List (Node Unit) := rangeNodes 60

def noLinks : List (Link Unit) := []

/-! ## Helper lemmas: JS `Set` as a duplicate-free list -/

theorem mem_setAdd {l : List String} {x a : String} :
    a ∈ setAdd l x ↔ a ∈ l ∨ a = x := by
  unfold setAdd
  split
  · rename_i h
    constructor
    · exact Or.inl
    · rintro (h1 | rfl)
      · exact h1
      · exact h
  · simp [List.mem_append]

theorem mem_foldl_setAdd (l : List String) (acc : List String) (a : String) :
    a ∈ l.foldl setAdd acc ↔ a ∈ acc ∨ a ∈ l := by
  induction l generalizing acc with
  | nil => simp
  | cons x xs ih =>
    simp only [List.foldl_cons, ih, mem_setAdd, List.mem_cons]
    tauto

theorem mem_setOfList {l : List String} {a : String} :
    a ∈ setOfList l ↔ a ∈ l := by
  unfold setOfList
  rw [mem_foldl_setAdd]
  simp

theorem nodup_setAdd {l : List String} {x : String} (h : l.Nodup) :
    (setAdd l x).Nodup := by
  unfold setAdd
  split
  · exact h
  · rename_i hx
    simp [List.nodup_append, h, hx]

theorem nodup_foldl_setAdd (l : List String) (acc : List String) (h : acc.Nodup) :
    (l.foldl setAdd acc).Nodup := by
  induction l generalizing acc with
  | nil => exact h
  | cons x xs ih => exact ih _ (nodup_setAdd h)

theorem nodup_setOfList (l : List String) : (setOfList l).Nodup :=
  nodup_foldl_setAdd l [] (by simp)

theorem foldl_setAdd_of_disjoint :
    ∀ (l acc : List String), l.Nodup → (∀ x ∈ l, x ∉ acc) →
      l.foldl setAdd acc = acc ++ l
  | [], acc, _, _ => by simp
  | x :: xs, acc, hnd, hdisj => by
    have hx : x ∉ acc := hdisj x (by simp)
    have hstep : setAdd acc x = acc ++ [x] := by
      unfold setAdd
      simp [hx]
    have hnd2 : xs.Nodup := (List.nodup_cons.mp hnd).2
    have hxnotxs : x ∉ xs := (List.nodup_cons.mp hnd).1
    have hdisj2 : ∀ y ∈ xs, y ∉ acc ++ [x] := by
      intro y hy
      simp only [List.mem_append, List.mem_singleton]
      rintro (hc | rfl)
      · exact hdisj y (by simp [hy]) hc
      · exact hxnotxs hy
    calc (x :: xs).foldl setAdd acc = xs.foldl setAdd (acc ++ [x]) := by
          simp [hstep]
      _ = (acc ++ [x]) ++ xs := foldl_setAdd_of_disjoint xs (acc ++ [x]) hnd2 hdisj2
      _ = acc ++ (x :: xs) := by simp

theorem setOfList_eq_self {l : List String} (h : l.Nodup) : setOfList l = l := by
  unfold setOfList
  simpa using foldl_setAdd_of_disjoint l [] h (by simp)

/-! ## Helper lemmas: stable sort -/

theorem mem_insertBy {α : Type} (lt : α → α → Bool) (x a : α) :
    ∀ l : List α, a ∈ insertBy lt x l ↔ a = x ∨ a ∈ l
  | [] => by simp [insertBy]
  | y :: ys => by
    unfold insertBy
    split
    · simp
    · simp only [List.mem_cons, mem_insertBy lt x a ys]
      tauto

theorem mem_foldl_insertBy {α : Type} (lt : α → α → Bool) (a : α) :
    ∀ (l acc : List α),
      a ∈ l.foldl (fun acc x => insertBy lt x acc) acc ↔ a ∈ acc ∨ a ∈ l
  | [], acc => by simp
  | x :: xs, acc => by
    simp only [List.foldl_cons, mem_foldl_insertBy lt a xs, mem_insertBy,
      List.mem_cons]
    tauto

theorem mem_sortBy {α : Type} {lt : α → α → Bool} {a : α} {l : List α} :
    a ∈ sortBy lt l ↔ a ∈ l := by
  unfold sortBy
  rw [mem_foldl_insertBy]
  simp

/-! ## Helper lemmas: the degree map -/

theorem mem_keysOf_setKey {m : List (String × Nat)} {k v x} :
    x ∈ keysOf (setKey m k v) ↔ x ∈ keysOf m ∨ x = k := by
  induction m with
  | nil => simp [setKey, keysOf]
  | cons e rest ih =>
    unfold setKey
    split
    · rename_i he
      simp only [keysOf, List.map_cons, List.mem_cons] at *
      rw [he]
      tauto
    · simp only [keysOf, List.map_cons, List.mem_cons] at *
      rw [ih]
      tauto

theorem keysOf_incKey (m : List (String × Nat)) (k : String) :
    keysOf (incKey m k) = keysOf m := by
  induction m with
  | nil => rfl
  | cons e rest ih =>
    unfold incKey
    split
    · simp [keysOf]
    · simp only [keysOf, List.map_cons] at *
      rw [ih]

theorem hasKey_iff {m : List (String × Nat)} {k : String} :
    hasKey m k = true ↔ k ∈ keysOf m := by
  simp [hasKey, keysOf, List.any_eq_true, beq_iff_eq, List.mem_map]

theorem getDeg_incKey_self :
    ∀ (m : List (String × Nat)) (k : String), k ∈ keysOf m →
      getDeg (incKey m k) k = getDeg m k + 1
  | [], k, h => by simp [keysOf] at h
  | e :: rest, k, h => by
    unfold incKey
    by_cases he : e.1 = k
    · simp [getDeg, List.find?_cons, he]
    · have hk : k ∈ keysOf rest := by
        simp only [keysOf, List.map_cons, List.mem_cons] at h
        rcases h with h | h
        · exact absurd h.symm he
        · exact h
      have hne : (e.1 == k) = false := by simp [he]
      simp only [if_neg he, getDeg, List.find?_cons, hne]
      exact getDeg_incKey_self rest k hk

theorem getDeg_incKey_ne :
    ∀ (m : List (String × Nat)) (k x : String), x ≠ k →
      getDeg (incKey m k) x = getDeg m x
  | [], _, _, _ => rfl
  | e :: rest, k, x, hne => by
    unfold incKey
    by_cases he : e.1 = k
    · have hxe : (e.1 == x) = false := by
        simp only [beq_eq_false_iff_ne, ne_eq]
        intro hc
        exact hne (hc.symm.trans he)
      have hkx : (k == x) = false := by
        simp only [beq_eq_false_iff_ne, ne_eq]
        exact fun hc => hne hc.symm
      simp [getDeg, he, List.find?_cons, hxe, hkx]
    · by_cases hex : e.1 = x
      · simp [getDeg, he, List.find?_cons, hex, hne]
      · have hxe : (e.1 == x) = false := by simp [hex]
        simp only [if_neg he, getDeg, List.find?_cons, hxe]
        exact getDeg_incKey_ne rest k x hne

theorem sumVals_incKey :
    ∀ (m : List (String × Nat)) (k : String), k ∈ keysOf m →
      sumVals (incKey m k) = sumVals m + 1
  | [], k, h => by simp [keysOf] at h
  | e :: rest, k, h => by
    unfold incKey
    by_cases he : e.1 = k
    · simp [sumVals, he]
      omega
    · have hk : k ∈ keysOf rest := by
        simp only [keysOf, List.map_cons, List.mem_cons] at h
        rcases h with h | h
        · exact absurd h.symm he
        · exact h
      simp only [if_neg he, sumVals, List.map_cons, List.sum_cons]
      have := sumVals_incKey rest k hk
      simp only [sumVals] at this
      omega

theorem mem_keysOf_foldl_setKey0 {α : Type} :
    ∀ (ns : List (Node α)) (m : List (String × Nat)) (x : String),
      x ∈ keysOf (ns.foldl (fun m n => setKey m n.id 0) m) ↔
        x ∈ keysOf m ∨ x ∈ ns.map Node.id
  | [], m, x => by simp
  | n :: ns, m, x => by
    simp only [List.foldl_cons, mem_keysOf_foldl_setKey0 ns, mem_keysOf_setKey,
      List.map_cons, List.mem_cons]
    tauto

theorem mem_keysOf_initDegrees {α : Type} {nodes : List (Node α)} {x : String} :
    x ∈ keysOf (initDegrees nodes) ↔ x ∈ nodes.map Node.id := by
  unfold initDegrees
  rw [mem_keysOf_foldl_setKey0]
  simp [keysOf]

theorem allZero_setKey {m : List (String × Nat)} {k : String}
    (h : ∀ e ∈ m, e.2 = 0) : ∀ e ∈ setKey m k 0, e.2 = 0 := by
  induction m with
  | nil => simp [setKey]
  | cons a rest ih =>
    unfold setKey
    split
    · intro e he
      rcases List.mem_cons.mp he with rfl | hmem
      · rfl
      · exact h e (List.mem_cons_of_mem _ hmem)
    · intro e he
      rcases List.mem_cons.mp he with rfl | hmem
      · exact h _ (List.mem_cons_self _ _)
      · exact ih (fun e he => h e (List.mem_cons_of_mem _ he)) e hmem

theorem allZero_initDegrees {α : Type} (nodes : List (Node α)) :
    ∀ e ∈ initDegrees nodes, e.2 = 0 := by
  unfold initDegrees
  suffices h : ∀ (ns : List (Node α)) (m : List (String × Nat)),
      (∀ e ∈ m, e.2 = 0) → ∀ e ∈ ns.foldl (fun m n => setKey m n.id 0) m, e.2 = 0 by
    exact h nodes [] (by simp)
  intro ns
  induction ns with
  | nil => intro m hm; simpa using hm
  | cons n rest ih =>
    intro m hm
    simp only [List.foldl_cons]
    exact ih _ (allZero_setKey hm)

theorem getDeg_of_allZero {m : List (String × Nat)} {k : String}
    (h : ∀ e ∈ m, e.2 = 0) : getDeg m k = 0 := by
  unfold getDeg
  cases hf : m.find? (fun e => e.1 == k) with
  | none => rfl
  | some e =>
    have he : e.2 = 0 := h e (List.mem_of_find?_eq_some hf)
    simp [he]

theorem getDeg_initDegrees {α : Type} (nodes : List (Node α)) (k : String) :
    getDeg (initDegrees nodes) k = 0 :=
  getDeg_of_allZero (allZero_initDegrees nodes)

theorem sumVals_of_allZero {m : List (String × Nat)}
    (h : ∀ e ∈ m, e.2 = 0) : sumVals m = 0 := by
  induction m with
  | nil => rfl
  | cons e rest ih =>
    simp only [sumVals, List.map_cons, List.sum_cons]
    have h1 : e.2 = 0 := h e (List.mem_cons_self e rest)
    have h2 : sumVals rest = 0 := ih (fun e he => h e (List.mem_cons_of_mem _ he))
    simp only [sumVals] at h2
    omega

theorem keysOf_incIfPresent (m : List (String × Nat)) (y : String) :
    keysOf (incIfPresent m y) = keysOf m := by
  unfold incIfPresent
  split
  · exact keysOf_incKey m y
  · rfl

theorem getDeg_incIfPresent (m : List (String × Nat)) (y : String) {k : String}
    (hk : k ∈ keysOf m) :
    getDeg (incIfPresent m y) k = getDeg m k + (if y = k then 1 else 0) := by
  unfold incIfPresent
  by_cases hyk : y = k
  · subst hyk
    rw [if_pos (hasKey_iff.mpr hk), getDeg_incKey_self m y hk]
    simp
  · simp only [if_neg hyk, add_zero]
    split
    · exact getDeg_incKey_ne m y k (fun hc => hyk hc.symm)
    · rfl

theorem sumVals_incIfPresent (m : List (String × Nat)) {y : String}
    (hy : y ∈ keysOf m) : sumVals (incIfPresent m y) = sumVals m + 1 := by
  unfold incIfPresent
  rw [if_pos (hasKey_iff.mpr hy)]
  exact sumVals_incKey m y hy

theorem keysOf_addLinkDegrees {β : Type} (m : List (String × Nat)) (l : Link β) :
    keysOf (addLinkDegrees m l) = keysOf m := by
  unfold addLinkDegrees
  rw [keysOf_incIfPresent, keysOf_incIfPresent]

theorem keysOf_foldl_addLink {β : Type} :
    ∀ (links : List (Link β)) (m : List (String × Nat)),
      keysOf (links.foldl addLinkDegrees m) = keysOf m
  | [], _ => rfl
  | l :: ls, m => by
    simp only [List.foldl_cons]
    rw [keysOf_foldl_addLink ls, keysOf_addLinkDegrees]

theorem keysOf_calculateNodeDegrees {α β : Type} {nodes : List (Node α)}
    {links : List (Link β)} {x : String} :
    x ∈ keysOf (calculateNodeDegrees nodes links) ↔ x ∈ nodes.map Node.id := by
  unfold calculateNodeDegrees
  rw [keysOf_foldl_addLink, mem_keysOf_initDegrees]

theorem getDeg_addLinkDegrees {β : Type} (m : List (String × Nat)) (l : Link β)
    {k : String} (hk : k ∈ keysOf m) :
    getDeg (addLinkDegrees m l) k =
      getDeg m k + (if l.source = k then 1 else 0) + (if l.target = k then 1 else 0) := by
  unfold addLinkDegrees
  rw [getDeg_incIfPresent _ l.target (by rw [keysOf_incIfPresent]; exact hk),
    getDeg_incIfPresent _ l.source hk]

theorem getDeg_foldl_addLink {β : Type} :
    ∀ (links : List (Link β)) (m : List (String × Nat)) (k : String),
      k ∈ keysOf m →
      getDeg (links.foldl addLinkDegrees m) k = getDeg m k + endpointCount k links
  | [], m, k, _ => by simp [endpointCount]
  | l :: ls, m, k, hk => by
    simp only [List.foldl_cons]
    rw [getDeg_foldl_addLink ls _ k (by rw [keysOf_addLinkDegrees]; exact hk),
      getDeg_addLinkDegrees m l hk]
    simp only [endpointCount, List.map_cons, List.sum_cons]
    omega

theorem sumVals_addLinkDegrees {β : Type} (m : List (String × Nat)) (l : Link β)
    (hs : l.source ∈ keysOf m) (ht : l.target ∈ keysOf m) :
    sumVals (addLinkDegrees m l) = sumVals m + 2 := by
  unfold addLinkDegrees
  rw [sumVals_incIfPresent _ (by rw [keysOf_incIfPresent]; exact ht),
    sumVals_incIfPresent _ hs]

theorem sumVals_foldl_addLink {β : Type} :
    ∀ (links : List (Link β)) (m : List (String × Nat)),
      (∀ l ∈ links, l.source ∈ keysOf m ∧ l.target ∈ keysOf m) →
      sumVals (links.foldl addLinkDegrees m) = sumVals m + 2 * links.length
  | [], m, _ => by simp
  | l :: ls, m, h => by
    simp only [List.foldl_cons]
    have hl := h l (List.mem_cons_self l ls)
    rw [sumVals_foldl_addLink ls _ (by
      intro e he
      rw [keysOf_addLinkDegrees]
      exact h e (List.mem_cons_of_mem l he))]
    rw [sumVals_addLinkDegrees m l hl.1 hl.2]
    simp only [List.length_cons]
    omega

/-! ## Claim C10 -/

/-- C10: for every node and edge array, the degree map returned by
`calculateNodeDegrees` has as key set exactly the input node ids (an
endpoint referencing an unknown node creates no key), and the value at
each known id `k` is the number of endpoint occurrences of `k` over the
edges (unknown endpoints are silently skipped; values are `Nat`, hence
non-negative). -/
theorem calculateNodeDegrees_keys_values {α β : Type} (nodes : List (Node α))
    (links : List (Link β)) (k : String) :
    (k ∈ keysOf (calculateNodeDegrees nodes links) ↔ k ∈ nodes.map Node.id) ∧
    (k ∈ nodes.map Node.id →
      getDeg (calculateNodeDegrees nodes links) k = endpointCount k links) := by
  constructor
  · exact keysOf_calculateNodeDegrees
  · intro hk
    unfold calculateNodeDegrees
    rw [getDeg_foldl_addLink links _ k (mem_keysOf_initDegrees.mpr hk),
      getDeg_initDegrees]
    omega

/-- Witness for C10 at a concrete input with one known node `a` and
dangling endpoints `b`, `c`. -/
theorem calculateNodeDegrees_keys_values_witness :
    ("c" ∈ keysOf (calculateNodeDegrees [(⟨"a", ()⟩ : Node Unit)]
        [(⟨"a", "b", ()⟩ : Link Unit), ⟨"c", "a", ()⟩]) ↔
      "c" ∈ [(⟨"a", ()⟩ : Node Unit)].map Node.id) ∧
    getDeg (calculateNodeDegrees [(⟨"a", ()⟩ : Node Unit)]
        [(⟨"a", "b", ()⟩ : Link Unit), ⟨"c", "a", ()⟩]) "a" =
      endpointCount "a" [(⟨"a", "b", ()⟩ : Link Unit), ⟨"c", "a", ()⟩] :=
  ⟨(calculateNodeDegrees_keys_values [⟨"a", ()⟩]
      [⟨"a", "b", ()⟩, ⟨"c", "a", ()⟩] "c").1,
    (calculateNodeDegrees_keys_values [⟨"a", ()⟩]
      [⟨"a", "b", ()⟩, ⟨"c", "a", ()⟩] "a").2 (by decide)⟩

/-! ## Claim C4 -/

/-- C4 counterexample: the input `nodes = [a]`, `edges = [a→b]` is a fixed
point of sanitization (so the graph is an output of `sanitize`), yet the
degree sum is 1 while `2 * |edges|` is 2 — a dangling endpoint is not
counted. -/
theorem degreeSum_counterexample :
    cleanNodes [(⟨"a", ()⟩ : Node Unit)] = [⟨"a", ()⟩] ∧
    cleanLinks [(⟨"a", "b", ()⟩ : Link Unit)] = [⟨"a", "b", ()⟩] ∧
    sumVals (calculateNodeDegrees (cleanNodes [(⟨"a", ()⟩ : Node Unit)])
      (cleanLinks [(⟨"a", "b", ()⟩ : Link Unit)])) = 1 ∧
    2 * (cleanLinks [(⟨"a", "b", ()⟩ : Link Unit)]).length = 2 := by
  decide

/-- C4 (amended): for every sanitized graph whose edges' endpoints all
occur among the node ids, the degree sum equals `2 * |edges|`. -/
theorem degreeSum_eq_twice_edges {α β : Type} (nodes : List (Node α))
    (links : List (Link β))
    (h : ∀ l ∈ cleanLinks links,
      l.source ∈ (cleanNodes nodes).map Node.id ∧
      l.target ∈ (cleanNodes nodes).map Node.id) :
    sumVals (calculateNodeDegrees (cleanNodes nodes) (cleanLinks links)) =
      2 * (cleanLinks links).length := by
  unfold calculateNodeDegrees
  rw [sumVals_foldl_addLink _ _ (fun l hl =>
    ⟨mem_keysOf_initDegrees.mpr (h l hl).1,
      mem_keysOf_initDegrees.mpr (h l hl).2⟩)]
  rw [sumVals_of_allZero (allZero_initDegrees _)]
  omega

/-- Witness for C4 (amended) on a 3-node graph with duplicate and
self-loop edges removed by sanitization. -/
theorem degreeSum_eq_twice_edges_witness :
    sumVals (calculateNodeDegrees
      (cleanNodes [(⟨"a", ()⟩ : Node Unit), ⟨"b", ()⟩, ⟨"c", ()⟩])
      (cleanLinks [(⟨"a", "a", ()⟩ : Link Unit), ⟨"a", "b", ()⟩,
        ⟨"b", "a", ()⟩, ⟨"b", "c", ()⟩])) =
      2 * (cleanLinks [(⟨"a", "a", ()⟩ : Link Unit), ⟨"a", "b", ()⟩,
        ⟨"b", "a", ()⟩, ⟨"b", "c", ()⟩]).length :=
  degreeSum_eq_twice_edges [⟨"a", ()⟩, ⟨"b", ()⟩, ⟨"c", ()⟩]
    [⟨"a", "a", ()⟩, ⟨"a", "b", ()⟩, ⟨"b", "a", ()⟩, ⟨"b", "c", ()⟩]
    (by decide)

/-! ## Claim C1 -/

/-- C1: whenever `|nodes| <= maxNodes`, `optimizeGraphForPerformance`
returns the input arrays unchanged with `filteredCount = 0` and
`optimizationLevel = "none"` (and no `compressionRate` field), for every
option setting and every outcome of the random oracle — hence exactly and
deterministically. -/
theorem optimize_noop {α β : Type} (nodes : List (Node α)) (links : List (Link β))
    (threshold : Nat) (opts : OptimizeOptions) (draws : Nat → Bool)
    (h : nodes.length ≤ opts.maxNodes) :
    optimizeGraphForPerformance nodes links threshold opts draws =
      ⟨nodes, links, 0, none, "none"⟩ := by
  unfold optimizeGraphForPerformance
  rw [if_pos h]

/-- Witness for C1 at a concrete small input under the default options. -/
theorem optimize_noop_witness :
    ([(⟨"a", ()⟩ : Node Unit)].length ≤ defaultOptions.maxNodes) ∧
    optimizeGraphForPerformance [(⟨"a", ()⟩ : Node Unit)]
        [(⟨"a", "b", ()⟩ : Link Unit)] 2 defaultOptions (fun _ => false) =
      ⟨[⟨"a", ()⟩], [⟨"a", "b", ()⟩], 0, none, "none"⟩ :=
  ⟨by decide, optimize_noop [⟨"a", ()⟩] [⟨"a", "b", ()⟩] 2 defaultOptions
    (fun _ => false) (by decide)⟩

/-! ## Claim C2 (counterexample) -/

/-- C2 counterexample: with an empty node array and one dangling edge the
no-op branch returns the edge unchanged, so the result has an edge whose
endpoints are not ids of the result's (empty) node set. -/
theorem edgeEndpoints_counterexample :
    ¬ (∀ l ∈ (optimizeGraphForPerformance ([] : List (Node Unit))
          [(⟨"a", "b", ()⟩ : Link Unit)] 2 defaultOptions (fun _ => false)).links,
        l.source ∈ (optimizeGraphForPerformance ([] : List (Node Unit))
          [(⟨"a", "b", ()⟩ : Link Unit)] 2 defaultOptions (fun _ => false)).nodes.map Node.id ∧
        l.target ∈ (optimizeGraphForPerformance ([] : List (Node Unit))
          [(⟨"a", "b", ()⟩ : Link Unit)] 2 defaultOptions (fun _ => false)).nodes.map Node.id) := by
  decide

/-! ## Subset chain: every kept id is an input node id -/

theorem importantIds_subset {degrees : List (String × Nat)} {dyn : Int} {x : String}
    (h : x ∈ importantIds degrees dyn) : x ∈ keysOf degrees := by
  unfold importantIds at h
  rcases List.mem_map.mp h with ⟨e, he, rfl⟩
  exact List.mem_map.mpr ⟨e, List.mem_of_mem_filter he, rfl⟩

theorem topDegreeIds_subset {degrees : List (String × Nat)} {k : Nat} {x : String}
    (h : x ∈ topDegreeIds degrees k) : x ∈ keysOf degrees := by
  unfold topDegreeIds at h
  rcases List.mem_map.mp h with ⟨e, he, rfl⟩
  have he2 : e ∈ sortBy (fun y x => y.2 < x.2) degrees :=
    List.take_subset _ _ he
  exact List.mem_map.mpr ⟨e, mem_sortBy.mp he2, rfl⟩

theorem keepCandidates_subset {α β : Type} {nodes : List (Node α)}
    {links : List (Link β)} {threshold : Nat} {opts : OptimizeOptions} {x : String}
    (h : x ∈ keepCandidates nodes links threshold opts) :
    x ∈ nodes.map Node.id := by
  unfold keepCandidates at h
  rcases List.mem_append.mp (mem_setOfList.mp h) with h1 | h1
  · exact keysOf_calculateNodeDegrees.mp (importantIds_subset h1)
  · exact keysOf_calculateNodeDegrees.mp (topDegreeIds_subset h1)

theorem mergeNodeCommunities_subset {β : Type} {nodes : List MergeNode}
    {links : List (Link β)} {t : Nat} {n : MergeNode}
    (h : n ∈ mergeNodeCommunities nodes links t) : n ∈ nodes := by
  unfold mergeNodeCommunities at h
  split at h
  · exact h
  · exact List.mem_of_mem_filter h

theorem keepAfterMerge_subset {α β : Type} {nodes : List (Node α)}
    {links : List (Link β)} {threshold : Nat} {opts : OptimizeOptions} {x : String}
    (h : x ∈ keepAfterMerge nodes links threshold opts) :
    x ∈ keepCandidates nodes links threshold opts := by
  simp only [keepAfterMerge] at h
  split at h
  · rcases List.mem_map.mp (mem_setOfList.mp h) with ⟨n, hn, rfl⟩
    rcases List.mem_map.mp (mergeNodeCommunities_subset hn) with ⟨i, hi, rfl⟩
    exact hi
  · exact h

theorem randomPassAux_sublist (draws : Nat → Bool) :
    ∀ (i : Nat) (l : List String), (randomPassAux draws i l).Sublist l
  | _, [] => List.Sublist.refl []
  | i, x :: xs => by
    unfold randomPassAux
    split
    · exact List.Sublist.cons₂ x (randomPassAux_sublist draws (i + 1) xs)
    · exact List.Sublist.cons x (randomPassAux_sublist draws (i + 1) xs)

theorem randomPass_sublist (nodeIds : List String) (draws : Nat → Bool) :
    (randomPass nodeIds draws).Sublist nodeIds :=
  randomPassAux_sublist draws 0 nodeIds

theorem randomSampleNodes_subset {nodeIds : List String} {t : Nat}
    {draws : Nat → Bool} {x : String}
    (h : x ∈ randomSampleNodes nodeIds t draws) : x ∈ nodeIds := by
  simp only [randomSampleNodes] at h
  split at h
  · exact h
  · split at h
    · rcases (mem_foldl_setAdd _ _ _).mp h with h1 | h1
      · exact (randomPass_sublist nodeIds draws).subset (mem_setOfList.mp h1)
      · exact List.mem_of_mem_filter (List.take_subset _ _ h1)
    · exact (randomPass_sublist nodeIds draws).subset (mem_setOfList.mp h)

theorem finalKeepIds_subset {α β : Type} {nodes : List (Node α)}
    {links : List (Link β)} {threshold : Nat} {opts : OptimizeOptions}
    {draws : Nat → Bool} {x : String}
    (h : x ∈ finalKeepIds nodes links threshold opts draws) :
    x ∈ nodes.map Node.id := by
  simp only [finalKeepIds] at h
  split at h
  · exact keepCandidates_subset (keepAfterMerge_subset (randomSampleNodes_subset h))
  · exact keepCandidates_subset (keepAfterMerge_subset h)

theorem mem_keep_mem_filtered {α : Type} {nodes : List (Node α)}
    {keep : List String} {x : String}
    (hid : x ∈ nodes.map Node.id) (hkeep : x ∈ keep) :
    x ∈ (nodes.filter (fun n => decide (n.id ∈ keep))).map Node.id := by
  rcases List.mem_map.mp hid with ⟨n, hn, rfl⟩
  exact List.mem_map.mpr ⟨n, List.mem_filter.mpr ⟨hn, by simpa using hkeep⟩, rfl⟩

/-- The reduction branch of `optimizeGraphForPerformance`, with all record
fields spelled out. -/
theorem optimize_reduce_fields {α β : Type} (nodes : List (Node α))
    (links : List (Link β)) (threshold : Nat) (opts : OptimizeOptions)
    (draws : Nat → Bool) (h : ¬ nodes.length ≤ opts.maxNodes) :
    optimizeGraphForPerformance nodes links threshold opts draws =
      ⟨nodes.filter (fun n =>
          decide (n.id ∈ finalKeepIds nodes links threshold opts draws)),
        links.filter (fun l =>
          decide (l.source ∈ finalKeepIds nodes links threshold opts draws) &&
          decide (l.target ∈ finalKeepIds nodes links threshold opts draws)),
        nodes.length - (nodes.filter (fun n =>
          decide (n.id ∈ finalKeepIds nodes links threshold opts draws))).length,
        some (round ((1 - ((nodes.filter (fun n =>
          decide (n.id ∈ finalKeepIds nodes links threshold opts draws))).length : ℚ) /
            (nodes.length : ℚ)) * 100)),
        if (1 - ((nodes.filter (fun n =>
            decide (n.id ∈ finalKeepIds nodes links threshold opts draws))).length : ℚ) /
              (nodes.length : ℚ)) > 8 / 10 then "heavy"
        else if (1 - ((nodes.filter (fun n =>
            decide (n.id ∈ finalKeepIds nodes links threshold opts draws))).length : ℚ) /
              (nodes.length : ℚ)) > 5 / 10 then "moderate" else "light"⟩ := by
  unfold optimizeGraphForPerformance
  rw [if_neg h]

/-! ## Claim C2 (amended) -/

/-- C2 (amended): provided every input edge's endpoints occur among the
input node ids, every edge in the result of reduce has both its endpoints
among the ids of the result's node set, for every option setting and
random outcome. (The reduction branch guarantees this unconditionally;
the no-op branch passes inputs through, so a dangling input edge
survives, whence the hypothesis.) -/
theorem optimize_edge_endpoints {α β : Type} (nodes : List (Node α))
    (links : List (Link β)) (threshold : Nat) (opts : OptimizeOptions)
    (draws : Nat → Bool)
    (hclosed : ∀ l ∈ links,
      l.source ∈ nodes.map Node.id ∧ l.target ∈ nodes.map Node.id) :
    ∀ l ∈ (optimizeGraphForPerformance nodes links threshold opts draws).links,
      l.source ∈ (optimizeGraphForPerformance nodes links threshold opts
        draws).nodes.map Node.id ∧
      l.target ∈ (optimizeGraphForPerformance nodes links threshold opts
        draws).nodes.map Node.id := by
  intro l hl
  by_cases h : nodes.length ≤ opts.maxNodes
  · rw [optimize_noop nodes links threshold opts draws h] at hl ⊢
    exact hclosed l hl
  · rw [optimize_reduce_fields nodes links threshold opts draws h] at hl ⊢
    have hp := (List.mem_filter.mp hl).2
    simp only [Bool.and_eq_true, decide_eq_true_eq] at hp
    exact ⟨mem_keep_mem_filtered (finalKeepIds_subset hp.1) hp.1,
      mem_keep_mem_filtered (finalKeepIds_subset hp.2) hp.2⟩

/-- Witness for C2 (amended): a closed graph whose reduction keeps the
edge-endpoint invariant, instantiated at its single edge. -/
theorem optimize_edge_endpoints_witness :
    "a" ∈ (optimizeGraphForPerformance [(⟨"a", ()⟩ : Node Unit), ⟨"b", ()⟩]
        [(⟨"a", "b", ()⟩ : Link Unit)] 2 defaultOptions (fun _ => false)).nodes.map Node.id ∧
    "b" ∈ (optimizeGraphForPerformance [(⟨"a", ()⟩ : Node Unit), ⟨"b", ()⟩]
        [(⟨"a", "b", ()⟩ : Link Unit)] 2 defaultOptions (fun _ => false)).nodes.map Node.id :=
  optimize_edge_endpoints [⟨"a", ()⟩, ⟨"b", ()⟩] [⟨"a", "b", ()⟩] 2
    defaultOptions (fun _ => false) (by decide) ⟨"a", "b", ()⟩ (by decide)

/-! ## Claim C3 -/

/-- C3 counterexample: with candidate set {a,b,c} and target 2 the
fallback runs, and for the random outcome that retains every candidate
the keep-set has 3 ids, not exactly 2 — the source has no trimming
step. -/
theorem randomSample_counterexample :
    (["a", "b", "c"] : List String).length > 2 ∧
    (randomSampleNodes ["a", "b", "c"] 2 (fun _ => true)).length = 3 := by
  decide

/-- C3 (amended): whenever the fallback runs (duplicate-free candidate
set larger than the target), the keep-set it returns has exactly
`max k target` ids, where `k` is the number of candidates retained by the
probabilistic pass: a pass below target is deterministically topped up to
exactly the target, but an over-retaining pass is never trimmed (so the
count is exactly the target iff `k ≤ target`). -/
theorem randomSampleNodes_length {nodeIds : List String} {t : Nat}
    {draws : Nat → Bool} (hnd : nodeIds.Nodup) (hgt : nodeIds.length > t) :
    (randomSampleNodes nodeIds t draws).length =
      max (randomPass nodeIds draws).length t := by
  unfold randomSampleNodes
  rw [if_neg (by omega)]
  have hsub := randomPass_sublist nodeIds draws
  have hndp : (randomPass nodeIds draws).Nodup := List.Nodup.sublist hsub hnd
  simp only [setOfList_eq_self hndp]
  by_cases hk : (randomPass nodeIds draws).length < t
  · rw [if_pos hk]
    have hremnd : (nodeIds.filter
        (fun id => decide (id ∉ randomPass nodeIds draws))).Nodup :=
      List.Nodup.filter _ hnd
    have htakend : ((nodeIds.filter
        (fun id => decide (id ∉ randomPass nodeIds draws))).take
          (t - (randomPass nodeIds draws).length)).Nodup :=
      List.Nodup.sublist (List.take_sublist _ _) hremnd
    have hdisj : ∀ x ∈ (nodeIds.filter
        (fun id => decide (id ∉ randomPass nodeIds draws))).take
          (t - (randomPass nodeIds draws).length),
        x ∉ randomPass nodeIds draws := by
      intro x hx
      have hmem := List.mem_filter.mp (List.take_subset _ _ hx)
      simpa using hmem.2
    rw [foldl_setAdd_of_disjoint _ _ htakend hdisj]
    rw [List.length_append, List.length_take]
    have hfle : (nodeIds.filter
        (fun a => decide (a ∈ randomPass nodeIds draws))).length ≤
          (randomPass nodeIds draws).length :=
      List.Subperm.length_le (List.subperm_of_subset
        (List.Nodup.filter _ hnd)
        (fun a ha => by simpa using (List.mem_filter.mp ha).2))
    have hsplit := List.length_eq_countP_add_countP
      (fun a => decide (a ∈ randomPass nodeIds draws)) nodeIds
    rw [List.countP_eq_length_filter, List.countP_eq_length_filter] at hsplit
    have hcongr : nodeIds.filter (fun a => ¬ decide (a ∈ randomPass nodeIds draws)) =
        nodeIds.filter (fun id => decide (id ∉ randomPass nodeIds draws)) := by
      apply List.filter_congr
      intro x _
      simp
    rw [hcongr] at hsplit
    omega
  · rw [if_neg hk]
    omega

/-- Witness for C3 (amended): four candidates, target two, one draw
retained — topped up to exactly two. -/
theorem randomSampleNodes_length_witness :
    (randomSampleNodes ["a", "b", "c", "d"] 2 (fun i => i == 0)).length =
      max (randomPass ["a", "b", "c", "d"] (fun i => i == 0)).length 2 :=
  randomSampleNodes_length (by decide) (by decide)

/-! ## Claim C9 -/

/-- C9: `getOptimizedSimulationConfig` is a pure lookup over the fixed
node-count breakpoints; across growing node counts the link distance,
link strength, collision radius and the magnitude of the (negative)
charge strength are all monotonically non-increasing; the function is
constant on `[1000, 5000)` (so `configureFor(1500)` is that band's
tuple), constant on `[500, 1000)`, and the two tuples are distinct. -/
theorem simulationConfig_monotone_bands :
    (∀ a b : Nat, a ≤ b →
      (getOptimizedSimulationConfig b).linkDistance ≤
        (getOptimizedSimulationConfig a).linkDistance ∧
      (getOptimizedSimulationConfig b).linkStrength ≤
        (getOptimizedSimulationConfig a).linkStrength ∧
      (getOptimizedSimulationConfig b).collideRadius ≤
        (getOptimizedSimulationConfig a).collideRadius ∧
      |(getOptimizedSimulationConfig b).chargeStrength| ≤
        |(getOptimizedSimulationConfig a).chargeStrength|) ∧
    (∀ n : Nat, 1000 ≤ n → n < 5000 →
      getOptimizedSimulationConfig n = getOptimizedSimulationConfig 1500) ∧
    (∀ n : Nat, 500 ≤ n → n < 1000 →
      getOptimizedSimulationConfig n = getOptimizedSimulationConfig 750) ∧
    getOptimizedSimulationConfig 1500 ≠ getOptimizedSimulationConfig 750 := by
  refine ⟨?_, ?_, ?_, ?_⟩
  · intro a b hab
    unfold getOptimizedSimulationConfig
    split_ifs <;>
      first
        | omega
        | exact ⟨by norm_num, by norm_num, by norm_num, by norm_num⟩
  · intro n h1 h2
    unfold getOptimizedSimulationConfig
    split_ifs <;> first | omega | rfl
  · intro n h1 h2
    unfold getOptimizedSimulationConfig
    split_ifs <;> first | omega | rfl
  · unfold getOptimizedSimulationConfig
    norm_num

/-- Witness for C9: the monotone comparison at 750 vs 1500 and the two
band memberships at concrete points. -/
theorem simulationConfig_monotone_bands_witness :
    ((getOptimizedSimulationConfig 1500).linkDistance ≤
        (getOptimizedSimulationConfig 750).linkDistance ∧
      (getOptimizedSimulationConfig 1500).linkStrength ≤
        (getOptimizedSimulationConfig 750).linkStrength ∧
      (getOptimizedSimulationConfig 1500).collideRadius ≤
        (getOptimizedSimulationConfig 750).collideRadius ∧
      |(getOptimizedSimulationConfig 1500).chargeStrength| ≤
        |(getOptimizedSimulationConfig 750).chargeStrength|) ∧
    getOptimizedSimulationConfig 4999 = getOptimizedSimulationConfig 1500 ∧
    getOptimizedSimulationConfig 999 = getOptimizedSimulationConfig 750 ∧
    getOptimizedSimulationConfig 1500 ≠ getOptimizedSimulationConfig 750 :=
  ⟨simulationConfig_monotone_bands.1 750 1500 (by omega),
    simulationConfig_monotone_bands.2.1 4999 (by omega) (by omega),
    simulationConfig_monotone_bands.2.2.1 999 (by omega) (by omega),
    simulationConfig_monotone_bands.2.2.2⟩

/-! ## Claim C8 -/

set_option maxRecDepth 10000 in
unseal Rat.mul Rat.inv Rat.add Rat.sub in
/-- C8 counterexample: a run on 51 isolated nodes with `maxNodes = 10`
removes 41 nodes; the rounded `compressionRate` is exactly 80 (which does
not exceed 80, so the claim's level function yields "moderate"), yet the
source computes the level from the unrounded ratio 41/51 > 0.8 and
reports "heavy". `level` is therefore not the claimed function of the
rounded rate. -/
theorem compressionLevel_counterexample :
    (optimizeGraphForPerformance nodes51 noLinks 2
      ⟨10, 15 / 100, false⟩ (fun _ => false)).filteredCount = 41 ∧
    (optimizeGraphForPerformance nodes51 noLinks 2
      ⟨10, 15 / 100, false⟩ (fun _ => false)).compressionRate = some 80 ∧
    (optimizeGraphForPerformance nodes51 noLinks 2
      ⟨10, 15 / 100, false⟩ (fun _ => false)).optimizationLevel = "heavy" ∧
    specLevelOfRate 80 = "moderate" := by
  decide

/-- C8 (amended): for every run, `removedCount = originalNodeCount -
keptCount`; in the no-op branch `level = "none"` and the result carries
no `compressionRate`; in the reduction branch `compressionRate =
round(removedCount/originalNodeCount * 100)` and `level` is computed from
the unrounded removal ratio: "heavy" above 0.8, "moderate" above 0.5,
else "light". -/
theorem optimize_rate_level {α β : Type} (nodes : List (Node α))
    (links : List (Link β)) (threshold : Nat) (opts : OptimizeOptions)
    (draws : Nat → Bool) :
    ((optimizeGraphForPerformance nodes links threshold opts draws).filteredCount =
      nodes.length -
        (optimizeGraphForPerformance nodes links threshold opts draws).nodes.length) ∧
    (nodes.length ≤ opts.maxNodes →
      (optimizeGraphForPerformance nodes links threshold opts
        draws).optimizationLevel = "none" ∧
      (optimizeGraphForPerformance nodes links threshold opts
        draws).compressionRate = none) ∧
    (opts.maxNodes < nodes.length →
      (optimizeGraphForPerformance nodes links threshold opts
        draws).compressionRate = some (round
          (((optimizeGraphForPerformance nodes links threshold opts
            draws).filteredCount : ℚ) / (nodes.length : ℚ) * 100)) ∧
      (optimizeGraphForPerformance nodes links threshold opts
        draws).optimizationLevel =
        (if ((optimizeGraphForPerformance nodes links threshold opts
              draws).filteredCount : ℚ) / (nodes.length : ℚ) > 8 / 10 then "heavy"
          else if ((optimizeGraphForPerformance nodes links threshold opts
              draws).filteredCount : ℚ) / (nodes.length : ℚ) > 5 / 10 then "moderate"
          else "light")) := by
  by_cases h : nodes.length ≤ opts.maxNodes
  · rw [optimize_noop nodes links threshold opts draws h]
    refine ⟨by simp, fun _ => ⟨rfl, rfl⟩, fun hc => absurd hc (by omega)⟩
  · rw [optimize_reduce_fields nodes links threshold opts draws h]
    dsimp only
    have hk : (nodes.filter (fun n =>
        decide (n.id ∈ finalKeepIds nodes links threshold opts draws))).length ≤
          nodes.length := List.length_filter_le _ _
    have hn : (nodes.length : ℚ) ≠ 0 := by
      have : 0 < nodes.length := by omega
      positivity
    have key : ((nodes.length - (nodes.filter (fun n =>
        decide (n.id ∈ finalKeepIds nodes links threshold opts draws))).length : Nat) : ℚ) /
          (nodes.length : ℚ) =
        1 - ((nodes.filter (fun n =>
          decide (n.id ∈ finalKeepIds nodes links threshold opts draws))).length : ℚ) /
            (nodes.length : ℚ) := by
      rw [Nat.cast_sub hk]
      field_simp
    refine ⟨rfl, fun hc => absurd hc (by omega), fun _ => ⟨?_, ?_⟩⟩
    · rw [key]
    · rw [key]

/-- Witness for C8 (amended): a 3-node reduction run with `maxNodes = 2`
(one node removed, rounded rate 33, level "light"). -/
theorem optimize_rate_level_witness :
    (optimizeGraphForPerformance [(⟨"a", ()⟩ : Node Unit), ⟨"b", ()⟩, ⟨"c", ()⟩]
      noLinks 2 ⟨2, 15 / 100, false⟩ (fun _ => false)).compressionRate =
        some (round
          (((optimizeGraphForPerformance [(⟨"a", ()⟩ : Node Unit), ⟨"b", ()⟩, ⟨"c", ()⟩]
            noLinks 2 ⟨2, 15 / 100, false⟩ (fun _ => false)).filteredCount : ℚ) /
              (([(⟨"a", ()⟩ : Node Unit), ⟨"b", ()⟩, ⟨"c", ()⟩].length : Nat) : ℚ) * 100)) ∧
    (optimizeGraphForPerformance [(⟨"a", ()⟩ : Node Unit), ⟨"b", ()⟩, ⟨"c", ()⟩]
      noLinks 2 ⟨2, 15 / 100, false⟩ (fun _ => false)).optimizationLevel =
        (if ((optimizeGraphForPerformance [(⟨"a", ()⟩ : Node Unit), ⟨"b", ()⟩, ⟨"c", ()⟩]
            noLinks 2 ⟨2, 15 / 100, false⟩ (fun _ => false)).filteredCount : ℚ) /
              (([(⟨"a", ()⟩ : Node Unit), ⟨"b", ()⟩, ⟨"c", ()⟩].length : Nat) : ℚ) >
              8 / 10 then "heavy"
          else if ((optimizeGraphForPerformance [(⟨"a", ()⟩ : Node Unit), ⟨"b", ()⟩, ⟨"c", ()⟩]
            noLinks 2 ⟨2, 15 / 100, false⟩ (fun _ => false)).filteredCount : ℚ) /
              (([(⟨"a", ()⟩ : Node Unit), ⟨"b", ()⟩, ⟨"c", ()⟩].length : Nat) : ℚ) >
              5 / 10 then "moderate"
          else "light") :=
  (optimize_rate_level [⟨"a", ()⟩, ⟨"b", ()⟩, ⟨"c", ()⟩] noLinks 2
    ⟨2, 15 / 100, false⟩ (fun _ => false)).2.2 (by decide)

/-! ## Claim C7 -/

/-- The hub layer is always part of the candidate union, whatever the
threshold filter selected. -/
theorem topDegreeIds_subset_candidates {α β : Type} {nodes : List (Node α)}
    {links : List (Link β)} {threshold : Nat} {opts : OptimizeOptions} {x : String}
    (hx : x ∈ topDegreeIds (calculateNodeDegrees nodes links)
      (topNodeCount nodes.length opts)) :
    x ∈ keepCandidates nodes links threshold opts := by
  simp only [keepCandidates]
  exact mem_setOfList.mpr (List.mem_append_right _ hx)

set_option maxRecDepth 10000 in
unseal Rat.mul Rat.inv Rat.add Rat.sub in
/-- C7 counterexample: 51 isolated nodes, `maxNodes = 1`, merge disabled.
The top `K = 50` ids (all degrees tie, input order breaks ties) include
`n49`, yet the random-sampling stage (all draws negative, top-up takes
the first candidate only) leaves a result containing only `n0`: a top-K
node does not survive the reduction. -/
theorem hub_counterexample :
    "n49" ∈ topDegreeIds (calculateNodeDegrees nodes51 noLinks)
      (topNodeCount nodes51.length ⟨1, 15 / 100, false⟩) ∧
    "n49" ∉ (optimizeGraphForPerformance nodes51 noLinks 2
      ⟨1, 15 / 100, false⟩ (fun _ => false)).nodes.map Node.id := by
  decide

/-- C7 (amended): the top-K ids by degree are selected into the candidate
keep-set independently of the degree-threshold filter (they are in the
union even when the threshold excludes them); and whenever reduction
occurs but the community-merge stage does not fire and the candidate set
is within `maxNodes` (so the sampling stage does not fire either), every
top-K id is among the ids of the result's node set. The unamended claim
fails because the merge and sampling stages may drop hubs. -/
theorem hub_topK_preserved :
    (∀ (α β : Type) (nodes : List (Node α)) (links : List (Link β))
      (threshold : Nat) (opts : OptimizeOptions) (x : String),
      x ∈ topDegreeIds (calculateNodeDegrees nodes links)
        (topNodeCount nodes.length opts) →
      x ∈ keepCandidates nodes links threshold opts) ∧
    (∀ (α β : Type) (nodes : List (Node α)) (links : List (Link β))
      (threshold : Nat) (opts : OptimizeOptions) (draws : Nat → Bool) (x : String),
      ¬ nodes.length ≤ opts.maxNodes →
      ¬ (opts.enableCommunityMerge = true ∧
        ((keepCandidates nodes links threshold opts).length : ℚ) >
          (opts.maxNodes : ℚ) * (8 / 10)) →
      (keepCandidates nodes links threshold opts).length ≤ opts.maxNodes →
      x ∈ topDegreeIds (calculateNodeDegrees nodes links)
        (topNodeCount nodes.length opts) →
      x ∈ (optimizeGraphForPerformance nodes links threshold opts
        draws).nodes.map Node.id) := by
  constructor
  · intro α β nodes links threshold opts x hx
    exact topDegreeIds_subset_candidates hx
  · intro α β nodes links threshold opts draws x hbig hm hs hx
    have hcand : x ∈ keepCandidates nodes links threshold opts :=
      topDegreeIds_subset_candidates hx
    have hkeq : finalKeepIds nodes links threshold opts draws =
        keepCandidates nodes links threshold opts := by
      simp only [finalKeepIds, keepAfterMerge]
      rw [if_neg hm, if_neg (by omega)]
    rw [optimize_reduce_fields nodes links threshold opts draws hbig]
    dsimp only
    rw [hkeq]
    exact mem_keep_mem_filtered (keepCandidates_subset hcand) hcand

set_option maxRecDepth 10000 in
unseal Rat.mul Rat.inv Rat.add Rat.sub in
/-- Witness for C7 (amended): 60 isolated nodes, `maxNodes = 55`, merge
disabled; the candidate set has 50 ids, no later stage fires, and the
top-K node `n49` survives to the result. -/
theorem hub_topK_preserved_witness :
    "n49" ∈ (optimizeGraphForPerformance nodes60 noLinks 2
      ⟨55, 15 / 100, false⟩ (fun _ => false)).nodes.map Node.id :=
  hub_topK_preserved.2 Unit Unit nodes60 noLinks 2 ⟨55, 15 / 100, false⟩
    (fun _ => false) "n49" (by decide) (by simp) (by decide) (by decide)

/-! ## Claim C6 -/

theorem dtLoopFuel_stable (vals : List Nat) (target : Nat) :
    ∀ (fuel : Nat) (low high best : Int),
      dtIterationBound low high ≤ fuel →
      dtLoopFuel vals target fuel low high best =
        dtLoopFuel vals target (dtIterationBound low high) low high best := by
  intro fuel
  induction fuel using Nat.strong_induction_on with
  | _ fuel ih =>
    cases fuel with
    | zero =>
      intro low high best hb
      rw [Nat.le_zero.mp hb]
    | succ f =>
      intro low high best hb
      by_cases hlh : low ≤ high
      · have hbpos : 1 ≤ dtIterationBound low high := by
          unfold dtIterationBound; omega
        obtain ⟨k, hk⟩ : ∃ k, dtIterationBound low high = k + 1 :=
          ⟨dtIterationBound low high - 1, by omega⟩
        rw [hk]
        simp only [dtLoopFuel]
        rw [if_pos hlh, if_pos hlh]
        by_cases hband : dtInBand target (dtCount vals ((low + high) / 2))
        · rw [if_pos hband, if_pos hband]
        · rw [if_neg hband, if_neg hband]
          by_cases hgt : ((dtCount vals ((low + high) / 2)) : ℚ) >
              (target : ℚ) * (12 / 10)
          · rw [if_pos hgt, if_pos hgt]
            have hlt : dtIterationBound ((low + high) / 2 + 1) high <
                dtIterationBound low high := by
              unfold dtIterationBound; omega
            rw [ih f (by omega) _ _ _ (by omega),
              ih k (by omega) _ _ _ (by omega)]
          · rw [if_neg hgt, if_neg hgt]
            have hlt : dtIterationBound low ((low + high) / 2 - 1) <
                dtIterationBound low high := by
              unfold dtIterationBound; omega
            rw [ih f (by omega) _ _ _ (by omega),
              ih k (by omega) _ _ _ (by omega)]
      · have h0 : dtIterationBound low high = 0 := by
          unfold dtIterationBound; omega
        rw [h0]
        simp only [dtLoopFuel]
        rw [if_neg hlh]

/-- C6: the dynamic-threshold binary search terminates. (i) Any fuel at
least the interval length `dtIterationBound low high` gives the same
result as exactly that much fuel — the while loop never needs more
iterations than the interval length, so it cannot loop forever; (ii) a
state with `low > high` exits at once with the running best threshold;
(iii) a tested midpoint whose count lies in the band
`[0.6*maxNodes, 1.2*maxNodes]` stops the search at once, returning that
midpoint; (iv) `calculateDynamicThreshold` itself equals the loop run
with any sufficient fuel. -/
theorem dynamicThreshold_terminates :
    (∀ (vals : List Nat) (target fuel : Nat) (low high best : Int),
      dtIterationBound low high ≤ fuel →
      dtLoopFuel vals target fuel low high best =
        dtLoopFuel vals target (dtIterationBound low high) low high best) ∧
    (∀ (vals : List Nat) (target fuel : Nat) (low high best : Int),
      high < low → dtLoopFuel vals target (fuel + 1) low high best = best) ∧
    (∀ (vals : List Nat) (target fuel : Nat) (low high best : Int),
      low ≤ high → dtInBand target (dtCount vals ((low + high) / 2)) →
      dtLoopFuel vals target (fuel + 1) low high best = (low + high) / 2) ∧
    (∀ (degrees : List (String × Nat)) (targetNodes minThreshold fuel : Nat),
      dtIterationBound (minThreshold : Int)
        ((maxElem (sortBy (fun y x => y < x) (degrees.map (·.2)))) : Int) ≤ fuel →
      ¬ (sortBy (fun y x => y < x) (degrees.map (·.2))).length ≤ targetNodes →
      calculateDynamicThreshold degrees targetNodes minThreshold =
        dtLoopFuel (sortBy (fun y x => y < x) (degrees.map (·.2))) targetNodes
          fuel (minThreshold : Int)
          ((maxElem (sortBy (fun y x => y < x) (degrees.map (·.2)))) : Int)
          (minThreshold : Int)) := by
  refine ⟨dtLoopFuel_stable, ?_, ?_, ?_⟩
  · intro vals target fuel low high best hlt
    simp only [dtLoopFuel]
    rw [if_neg (by omega)]
  · intro vals target fuel low high best hlh hband
    simp only [dtLoopFuel]
    rw [if_pos hlh, if_pos hband]
  · intro degrees targetNodes minThreshold fuel hfuel hguard
    simp only [calculateDynamicThreshold]
    rw [if_neg hguard]
    rw [dtLoopFuel_stable _ _ fuel _ _ _ hfuel]

unseal Rat.mul Rat.inv Rat.add Rat.sub in
/-- Witness for C6 at concrete states: a stabilization instance, an
immediate exit, a band hit, and a `calculateDynamicThreshold` run. -/
theorem dynamicThreshold_terminates_witness :
    (dtLoopFuel [5, 3, 1] 2 10 0 5 0 =
      dtLoopFuel [5, 3, 1] 2 (dtIterationBound 0 5) 0 5 0) ∧
    (dtLoopFuel [5, 3, 1] 2 (0 + 1) 1 0 7 = 7) ∧
    (dtLoopFuel [3, 3, 1] 3 (4 + 1) 1 3 0 = (1 + 3) / 2) ∧
    (calculateDynamicThreshold [("a", 2), ("b", 1)] 1 0 =
      dtLoopFuel (sortBy (fun y x => y < x)
          ([(("a" : String), (2 : Nat)), ("b", 1)].map (·.2))) 1 5 ((0 : Nat) : Int)
        ((maxElem (sortBy (fun y x => y < x)
          ([(("a" : String), (2 : Nat)), ("b", 1)].map (·.2)))) : Int) ((0 : Nat) : Int)) :=
  ⟨dynamicThreshold_terminates.1 [5, 3, 1] 2 10 0 5 0 (by decide),
    dynamicThreshold_terminates.2.1 [5, 3, 1] 2 0 1 0 7 (by decide),
    dynamicThreshold_terminates.2.2.1 [3, 3, 1] 3 4 1 3 0 (by decide) (by decide),
    dynamicThreshold_terminates.2.2.2 [("a", 2), ("b", 1)] 1 0 5 (by decide) (by decide)⟩

/-! ## Claim C5 -/

theorem append_dash_inj :
    ∀ (a c b d : List Char), '-' ∉ a → '-' ∉ c →
      a ++ '-' :: b = c ++ '-' :: d → a = c ∧ b = d
  | [], [], b, d, _, _, h => by
    simp only [List.nil_append, List.cons.injEq] at h
    exact ⟨rfl, h.2⟩
  | [], c0 :: cs, b, d, _, hc, h => by
    simp only [List.nil_append, List.cons_append, List.cons.injEq] at h
    exact absurd (List.mem_cons_self c0 cs) (h.1 ▸ hc)
  | a0 :: as, [], b, d, ha, _, h => by
    simp only [List.nil_append, List.cons_append, List.cons.injEq] at h
    exact absurd (List.mem_cons_self a0 as) (h.1.symm ▸ ha)
  | a0 :: as, c0 :: cs, b, d, ha, hc, h => by
    simp only [List.cons_append, List.cons.injEq] at h
    have ih := append_dash_inj as cs b d
      (fun hm => ha (List.mem_cons_of_mem a0 hm))
      (fun hm => hc (List.mem_cons_of_mem c0 hm)) h.2
    exact ⟨by rw [h.1, ih.1], ih.2⟩

theorem string_dash_key_inj {a b c d : String}
    (ha : dashFree a) (hc : dashFree c)
    (h : a ++ "-" ++ b = c ++ "-" ++ d) : a = c ∧ b = d := by
  have hdata : a.data ++ '-' :: b.data = c.data ++ '-' :: d.data := by
    have h2 := congrArg String.data h
    simpa [String.data_append] using h2
  obtain ⟨h1, h2⟩ := append_dash_inj a.data c.data b.data d.data ha hc hdata
  exact ⟨String.ext h1, String.ext h2⟩

theorem canonicalKey_eq_join {β : Type} (l : Link β) :
    canonicalKey l = (specPair l).1 ++ "-" ++ (specPair l).2 := by
  unfold canonicalKey specPair
  split <;> rfl

theorem dashFree_specPair_fst {β : Type} {l : Link β}
    (h1 : dashFree l.source) (h2 : dashFree l.target) :
    dashFree (specPair l).1 := by
  unfold specPair
  split
  · exact h1
  · exact h2

theorem key_mem_iff {β : Type} (l : Link β) (seenP : List (String × String))
    (h1 : dashFree l.source) (h2 : dashFree l.target)
    (hseen : ∀ p ∈ seenP, dashFree p.1) :
    canonicalKey l ∈ seenP.map (fun p => p.1 ++ "-" ++ p.2) ↔ specPair l ∈ seenP := by
  rw [canonicalKey_eq_join]
  constructor
  · intro h
    rcases List.mem_map.mp h with ⟨p, hp, heq⟩
    obtain ⟨he1, he2⟩ :=
      string_dash_key_inj (hseen p hp) (dashFree_specPair_fst h1 h2) heq
    have hpe : p = specPair l := by
      rcases p with ⟨p1, p2⟩
      rcases hq : specPair l with ⟨q1, q2⟩
      rw [hq] at he1 he2
      simp only at he1 he2
      rw [he1, he2]
    exact hpe ▸ hp
  · intro h
    exact List.mem_map.mpr ⟨specPair l, h, rfl⟩

theorem cleanNodesAux_eq_spec {α : Type} :
    ∀ (nodes : List (Node α)) (seen pre : List String),
      (∀ x, x ∈ seen ↔ x ∈ pre) →
      cleanNodesAux nodes seen = specCleanNodesAux nodes pre
  | [], _, _, _ => rfl
  | n :: ns, seen, pre, hiff => by
    unfold cleanNodesAux specCleanNodesAux
    by_cases hn : n.id ∈ seen
    · rw [if_pos hn, if_pos ((hiff n.id).mp hn)]
      exact cleanNodesAux_eq_spec ns seen (pre ++ [n.id]) (fun x => by
        rw [hiff x]
        constructor
        · intro hx
          exact List.mem_append_left _ hx
        · intro hx
          rcases List.mem_append.mp hx with hx | hx
          · exact hx
          · rw [List.mem_singleton.mp hx]
            exact (hiff n.id).mp hn)
    · rw [if_neg hn, if_neg (fun hc => hn ((hiff n.id).mpr hc))]
      congr 1
      exact cleanNodesAux_eq_spec ns (n.id :: seen) (pre ++ [n.id]) (fun x => by
        simp only [List.mem_cons, List.mem_append, List.mem_singleton, hiff x]
        tauto)

theorem cleanLinksAux_eq_spec {β : Type} :
    ∀ (links : List (Link β)) (seenP : List (String × String)),
      (∀ l ∈ links, dashFree l.source ∧ dashFree l.target) →
      (∀ p ∈ seenP, dashFree p.1) →
      cleanLinksAux links (seenP.map (fun p => p.1 ++ "-" ++ p.2)) =
        specCleanLinksAux links seenP
  | [], _, _, _ => rfl
  | l :: ls, seenP, hdf, hseen => by
    unfold cleanLinksAux specCleanLinksAux
    have hl := hdf l (List.mem_cons_self l ls)
    have hdf2 : ∀ e ∈ ls, dashFree e.source ∧ dashFree e.target :=
      fun e he => hdf e (List.mem_cons_of_mem l he)
    by_cases hself : l.source = l.target
    · rw [if_pos hself, if_pos hself]
      exact cleanLinksAux_eq_spec ls seenP hdf2 hseen
    · rw [if_neg hself, if_neg hself]
      by_cases hmem : specPair l ∈ seenP
      · rw [if_pos ((key_mem_iff l seenP hl.1 hl.2 hseen).mpr hmem), if_pos hmem]
        exact cleanLinksAux_eq_spec ls seenP hdf2 hseen
      · rw [if_neg (fun hc => hmem ((key_mem_iff l seenP hl.1 hl.2 hseen).mp hc)),
          if_neg hmem]
        congr 1
        have hstep : canonicalKey l :: seenP.map (fun p => p.1 ++ "-" ++ p.2) =
            (specPair l :: seenP).map (fun p => p.1 ++ "-" ++ p.2) := by
          simp [canonicalKey_eq_join]
        rw [hstep]
        exact cleanLinksAux_eq_spec ls (specPair l :: seenP) hdf2 (by
          intro p hp
          rcases List.mem_cons.mp hp with rfl | hp2
          · exact dashFree_specPair_fst hl.1 hl.2
          · exact hseen p hp2)

/-- C5 counterexample: the edges `(a-b)→c` and `a→(b-c)` are not
self-loops and have different canonical unordered pairs, yet `cleanLinks`
drops the second one: the source's string dedup key
`[source,target].sort().join('-')` collides for ids containing `'-'`. -/
theorem sanitize_pair_counterexample :
    (⟨"a", "b-c", ()⟩ : Link Unit).source ≠ (⟨"a", "b-c", ()⟩ : Link Unit).target ∧
    specPair (⟨"a-b", "c", ()⟩ : Link Unit) ≠ specPair (⟨"a", "b-c", ()⟩ : Link Unit) ∧
    cleanLinks [(⟨"a-b", "c", ()⟩ : Link Unit), ⟨"a", "b-c", ()⟩] =
      [⟨"a-b", "c", ()⟩] := by
  decide

/-- C5 (amended): `cleanNodes` keeps exactly the first occurrence of each
node id, in input order (unconditionally); and for inputs whose ids do
not contain the `'-'` character, `cleanLinks` keeps an edge iff it is not
a self-loop and no earlier kept edge has the same canonical unordered
pair `{min(source,target), max(source,target)}`, in input order — both
stated as equality with the spec-side recursions `specCleanNodes` /
`specCleanLinks`. For ids containing `'-'` the source's joined dedup key
can collide across distinct pairs. -/
theorem sanitize_eq_spec :
    (∀ (α : Type) (nodes : List (Node α)), cleanNodes nodes = specCleanNodes nodes) ∧
    (∀ (β : Type) (links : List (Link β)),
      (∀ l ∈ links, dashFree l.source ∧ dashFree l.target) →
      cleanLinks links = specCleanLinks links) :=
  ⟨fun _ nodes => cleanNodesAux_eq_spec nodes [] [] (by simp),
    fun _ links h => cleanLinksAux_eq_spec links [] h (by simp)⟩

/-- Witness for C5 (amended) on concrete inputs with duplicate node ids,
a self-loop and a reversed duplicate edge. -/
theorem sanitize_eq_spec_witness :
    cleanNodes [(⟨"a", 0⟩ : Node Nat), ⟨"b", 1⟩, ⟨"a", 2⟩] =
      specCleanNodes [⟨"a", 0⟩, ⟨"b", 1⟩, ⟨"a", 2⟩] ∧
    cleanLinks [(⟨"a", "a", ()⟩ : Link Unit), ⟨"a", "b", ()⟩, ⟨"b", "a", ()⟩] =
      specCleanLinks [⟨"a", "a", ()⟩, ⟨"a", "b", ()⟩, ⟨"b", "a", ()⟩] :=
  ⟨sanitize_eq_spec.1 Nat [⟨"a", 0⟩, ⟨"b", 1⟩, ⟨"a", 2⟩],
    sanitize_eq_spec.2 Unit [⟨"a", "a", ()⟩, ⟨"a", "b", ()⟩, ⟨"b", "a", ()⟩]
      (by decide)⟩
